import Mathlib

/-!
Verification of the BioDataMine dataset ingestion pipeline.

Shallow embedding of the Python sources under `backend/app`:
* `utilities/pipeline_helper_functions.py` (PipelineHelpers)
* `services/pipelines/dataset_pipeline_controller.py` (DatasetPipelineController)
* `services/ingestion/prepare.py` (workspace preparer)
* `services/ingestion/providers/http_provider.py` (streaming download)
* `services/sniff.py` (format sniffer)

Python `collections.Counter` objects are modelled as insertion-ordered
association lists `List (String × Nat)`; Python dicts whose keys matter to a
claim are association lists as well.  Machine integers do not overflow in any
of the code paths considered (Python ints are unbounded), so `Nat`/`Int` are
used directly.  Fallible code is modelled with `Except`/`Option`.
-/

/-! ## Counters (`collections.Counter`) -/

/-- A Python `collections.Counter[str]`: insertion-ordered association list. -/
abbrev Counter := List (String × Nat)

/-- `counter[k] += 1`: bump an existing key in place, or append `(k, 1)` at the
end (Python dicts preserve insertion order). -/
def counterIncr : Counter → String → Counter
  | [], k => [(k, 1)]
  | (k0, n) :: rest, k =>
    if k0 = k then (k0, n + 1) :: rest else (k0, n) :: counterIncr rest k

/-- `counter[k]` as read access (missing key counts as 0). -/
def counterGet (c : Counter) (k : String) : Nat :=
  match List.lookup k c with
  | some n => n
  | none => 0

/-- The keys of a counter, in insertion order. -/
def counterKeys (c : Counter) : List String := c.map Prod.fst

/-- `sum(counter.values())`. -/
def sumValues (c : Counter) : Nat := (c.map Prod.snd).sum

/-- Counting a list of labels: `Counter(labels)` built by repeated increments. -/
def counterOfLabels (ls : List String) : Counter := ls.foldl counterIncr []

/-- Python `x or "unknown"` on an optional string (`None` and `""` are falsy). -/
def orUnknownStr : Option String → String
  | none => "unknown"
  | some s => if s = "" then "unknown" else s

/-! ## PipelineHelpers (`utilities/pipeline_helper_functions.py`) -/

/-- `PipelineHelpers.is_mixed_modality`: list the labels with positive count
other than `"unknown"` and test whether there is more than one. -/
def is_mixed_modality (modality_counts : Counter) : Bool :=
  decide (1 < (modality_counts.filter (fun p => decide (0 < p.2 ∧ p.1 ≠ "unknown"))).length)

/-- `PipelineHelpers.build_modalities_profile`.  The Python float percentages
are modelled as rationals; the constant `confidence: None` entry is omitted
from the model since no claim mentions it. -/
def build_modalities_profile (modality_counts : Counter) (total_files : Nat) :
    List (String × Rat) :=
  let denom : Rat := if total_files = 0 then 1 else (total_files : Rat)
  modality_counts.map (fun p => (p.1, ((p.2 : Rat) / denom) * 100))

/-! ## Analyzer documents and controller counters
(`services/pipelines/dataset_pipeline_controller.py`) -/

/-- The slice of an analyzed-file document read by `accumulate_counts` and the
completion loop: `doc["kind"]`, `doc["modality"]`,
`doc["meta"].get("SeriesInstanceUID")` and `info["ndim"]`.  `Option` models
missing / `None` values. -/
structure AnalyzedDoc where
  kind : Option String
  modality : Option String
  seriesUid : Option String
  ndim : Option Int
deriving DecidableEq

/-- One completed analyzer task, as consumed by `_process_completed_tasks`:
the document plus `PipelineHelpers.file_ext(fp)` of its path. -/
structure CompletedTask where
  ext : String
  doc : AnalyzedDoc
deriving DecidableEq

/-- `PipelineHelpers.accumulate_counts`: updates the four counters for one
document and returns them (the Python method mutates them in place). -/
def accumulate_counts (doc : AnalyzedDoc) (ext : String)
    (modality_counts kind_counts ext_counts dicom_series_counts : Counter) :
    Counter × Counter × Counter × Counter :=
  let modality := orUnknownStr doc.modality
  let mc := counterIncr modality_counts modality
  let kind := orUnknownStr doc.kind
  let kc := counterIncr kind_counts kind
  let ec := counterIncr ext_counts ext
  let dsc :=
    if kind = "dicom" then
      match doc.seriesUid with
      | some s => if s = "" then dicom_series_counts else counterIncr dicom_series_counts s
      | none => dicom_series_counts
    else dicom_series_counts
  (mc, kc, ec, dsc)

/-- The counters held by `DatasetPipelineController` (its `__init__` zeroes all
of them). -/
structure CtrlState where
  modality_counts : Counter
  kind_counts : Counter
  ext_counts : Counter
  scheduled_ext_counts : Counter
  duplicate_basename_ext_counts : Counter
  duplicate_basename_count : Nat
  dicom_series_counts : Counter
  image_2d_count : Nat
  volume_3d_count : Nat
  total_files : Nat
  scheduled : Nat
  completed : Nat
deriving DecidableEq

/-- The counters mutated by the walk loop of `_stage_analyze` (scheduling and
duplicate-basename bookkeeping).  The walk loop touches no other counter. -/
structure WalkCounters where
  scheduled : Nat
  scheduled_ext_counts : Counter
  duplicate_basename_count : Nat
  duplicate_basename_ext_counts : Counter
deriving DecidableEq

/-- Controller state with the analysis counters at their `__init__` zeroes and
the walk counters as produced by the walk loop.  The walk loop and the
completion loop interleave in the source, but they update disjoint fields, so
the final state equals walk-first followed by all completions. -/
def initAfterWalk (w : WalkCounters) : CtrlState :=
  { modality_counts := [], kind_counts := [], ext_counts := [],
    scheduled_ext_counts := w.scheduled_ext_counts,
    duplicate_basename_ext_counts := w.duplicate_basename_ext_counts,
    duplicate_basename_count := w.duplicate_basename_count,
    dicom_series_counts := [], image_2d_count := 0, volume_3d_count := 0,
    total_files := 0, scheduled := w.scheduled, completed := 0 }

/-- Body of `_process_completed_tasks` for one completed task: bump
`total_files` and `completed`, run `accumulate_counts`, and update the
2D/3D counters from `info["ndim"]` when it is an `int`. -/
def processCompleted (st : CtrlState) (t : CompletedTask) : CtrlState :=
  let st1 := { st with total_files := st.total_files + 1, completed := st.completed + 1 }
  let acc := accumulate_counts t.doc t.ext st1.modality_counts st1.kind_counts
      st1.ext_counts st1.dicom_series_counts
  let st2 :=
    { st1 with
        modality_counts := acc.fst
        kind_counts := acc.snd.fst
        ext_counts := acc.snd.snd.fst
        dicom_series_counts := acc.snd.snd.snd }
  match t.doc.ndim with
  | some n =>
    if 3 ≤ n then { st2 with volume_3d_count := st2.volume_3d_count + 1 }
    else if n = 2 then { st2 with image_2d_count := st2.image_2d_count + 1 }
    else st2
  | none => st2

/-- Start of `_stage_finalize`: add the number of DICOM series with at least
two instances to `volume_3d_count`. -/
def finalizeVolume (st : CtrlState) : CtrlState :=
  { st with volume_3d_count :=
      st.volume_3d_count + (st.dicom_series_counts.filter (fun p => decide (2 ≤ p.2))).length }

/-- Values appearing in the persisted summary document. -/
inductive SVal
  | natV (n : Nat)
  | boolV (b : Bool)
  | counterV (c : Counter)
  | profileV (p : List (String × Rat))
deriving DecidableEq

/-- The `summary` dict literal written by `_stage_finalize`, key for key and in
source order. -/
def summaryDict (st : CtrlState) : List (String × SVal) :=
  [("total_files", SVal.natV st.total_files),
   ("modality_counts", SVal.counterV st.modality_counts),
   ("modalities", SVal.profileV (build_modalities_profile st.modality_counts st.total_files)),
   ("mixed_modality", SVal.boolV (is_mixed_modality st.modality_counts)),
   ("outliers", SVal.natV 0),
   ("kind_counts", SVal.counterV st.kind_counts),
   ("ext_counts", SVal.counterV st.ext_counts),
   ("duplicate_basename_count", SVal.natV st.duplicate_basename_count),
   ("duplicate_basename_ext_counts", SVal.counterV st.duplicate_basename_ext_counts),
   ("image_2d_count", SVal.natV st.image_2d_count),
   ("volume_3d_count", SVal.natV st.volume_3d_count)]

/-- Read a counter-valued summary entry and sum its values. -/
def counterSumAt (s : List (String × SVal)) (k : String) : Option Nat :=
  match List.lookup k s with
  | some (SVal.counterV c) => some (sumValues c)
  | _ => none

/-- Read a nat-valued summary entry. -/
def natAt (s : List (String × SVal)) (k : String) : Option Nat :=
  match List.lookup k s with
  | some (SVal.natV n) => some n
  | _ => none

/-! ## Controller run and its store effects (`run`, failure path) -/

/-- Values written into the `datasets` collection by `update_one` calls. -/
inductive DVal
  | strV (s : String)
  | summaryV (s : List (String × SVal))
deriving DecidableEq

/-- Store operations issued by the controller, as visible at the claim level:
`datasets.update_one({dataset_id}, {$set: ...})`, `files.delete_many`, and one
`files.bulk_write` of a given size. -/
inductive DbEffect
  | updateDatasets (sets : List (String × DVal))
  | deleteFilesFor (datasetId : String)
  | bulkWriteFiles (nops : Nat)
deriving DecidableEq

/-- Result of `prepare_dataset_workspace` as used by `_stage_prepare`. -/
structure PrepInfo where
  provider : String
  originalUrl : String
  resolvedUrl : String
deriving DecidableEq

/-- First update of `_stage_prepare`. -/
def updProcessing : DbEffect :=
  DbEffect.updateDatasets
    [("status", DVal.strV "processing"), ("meta.stage", DVal.strV "prepare")]

/-- Second update of `_stage_prepare`, after the preparer succeeds. -/
def updResolution (p : PrepInfo) : DbEffect :=
  DbEffect.updateDatasets
    [("meta.ingest.provider", DVal.strV p.provider),
     ("meta.resolution.original_url", DVal.strV p.originalUrl),
     ("meta.resolution.resolved_url", DVal.strV p.resolvedUrl),
     ("meta.stage", DVal.strV "analyze_files")]

/-- `_stage_prepare`: the first update always runs; the preparer either raises
(modelled by `Except.error` carrying `repr(e)`) or the resolution update runs. -/
def stagePrepareRun (prep : Except String PrepInfo) : List DbEffect × Option String :=
  match prep with
  | Except.error e => ([updProcessing], some e)
  | Except.ok p => ([updProcessing, updResolution p], none)

/-- `_stage_analyze` at the store level: it deletes the prior `files` rows and
then the batch writer issues some sequence of `files.bulk_write` calls; the
stage may terminate with an escaping exception (walker failure, task failure
re-raised, `batch-writer crashed`, ...).  It performs no `datasets` update. -/
def stageAnalyzeRun (datasetId : String) (bulkSizes : List Nat) (outcome : Option String) :
    List DbEffect × Option String :=
  (DbEffect.deleteFilesFor datasetId :: bulkSizes.map DbEffect.bulkWriteFiles, outcome)

/-- The single update of `_stage_finalize`. -/
def finalUpdate (st : CtrlState) : DbEffect :=
  DbEffect.updateDatasets
    [("meta.stage", DVal.strV "finalize"),
     ("summary", DVal.summaryV (summaryDict (finalizeVolume st))),
     ("status", DVal.strV "ready")]

/-- `_stage_finalize`: one `datasets` update carrying the summary; if that
(only fallible) store call raises, the write is not applied. -/
def stageFinalizeRun (st : CtrlState) (updOk : Bool) (errMsg : String) :
    List DbEffect × Option String :=
  if updOk then ([finalUpdate st], none) else ([], some errMsg)

/-- The `$set` document of the `except`-branch update in `run`. -/
def failUpdate (msg : String) : DbEffect :=
  DbEffect.updateDatasets
    [("status", DVal.strV "failed"), ("meta.stage", DVal.strV "failed"),
     ("meta.last_error", DVal.strV msg)]

/-- Environment determining one controller run: outcome of the preparer, the
bulk writes and outcome of the analyze stage, the completed analyzer tasks and
walk counters feeding the summary, and whether the finalize update succeeds. -/
structure RunEnv where
  datasetId : String
  prepOutcome : Except String PrepInfo
  bulkSizes : List Nat
  analyzeOutcome : Option String
  walk : WalkCounters
  tasks : List CompletedTask
  finalizeUpdateOk : Bool
  finalizeErrMsg : String

/-- Counter state reached by the completion loop of this run. -/
def ctrlStateOf (env : RunEnv) : CtrlState :=
  env.tasks.foldl processCompleted (initAfterWalk env.walk)

/-- `DatasetPipelineController.run`: the three stages in order inside one
`try`; the `except` branch appends exactly one `failed` update. -/
def runPipeline (env : RunEnv) : List DbEffect :=
  match stagePrepareRun env.prepOutcome with
  | (e1, some msg) => e1 ++ [failUpdate msg]
  | (e1, none) =>
    match stageAnalyzeRun env.datasetId env.bulkSizes env.analyzeOutcome with
    | (e2, some msg) => e1 ++ e2 ++ [failUpdate msg]
    | (e2, none) =>
      match stageFinalizeRun (ctrlStateOf env) env.finalizeUpdateOk env.finalizeErrMsg with
      | (e3, some msg) => e1 ++ e2 ++ e3 ++ [failUpdate msg]
      | (e3, none) => e1 ++ e2 ++ e3

/-- The exception (repr string) reaching the controller boundary, if any. -/
def runOutcome (env : RunEnv) : Option String :=
  match (stagePrepareRun env.prepOutcome).2 with
  | some msg => some msg
  | none =>
    match (stageAnalyzeRun env.datasetId env.bulkSizes env.analyzeOutcome).2 with
    | some msg => some msg
    | none => (stageFinalizeRun (ctrlStateOf env) env.finalizeUpdateOk env.finalizeErrMsg).2

/-- A `datasets` update whose `$set` document contains the `summary` key. -/
def isSummaryWrite : DbEffect → Bool
  | DbEffect.updateDatasets sets => (sets.map Prod.fst).contains "summary"
  | _ => false

/-- A `datasets` update that sets `status` to `"failed"`. -/
def isFailureUpdate : DbEffect → Bool
  | DbEffect.updateDatasets sets => sets.contains ("status", DVal.strV "failed")
  | _ => false

/-! ## Character-level string helpers

The string operations the sources use (`str.split`, `str.endswith`,
`str.startswith`, `str.lower`) are re-implemented here by structural recursion
over the character list, so that all definitions evaluate on concrete input. -/

/-- Worker for `splitOnChar`: `cur` holds the current segment reversed. -/
def splitOnCharGo (sep : Char) : List Char → List Char → List String
  | [], cur => [String.mk cur.reverse]
  | c :: rest, cur =>
    if c == sep then String.mk cur.reverse :: splitOnCharGo sep rest []
    else splitOnCharGo sep rest (c :: cur)

/-- Python `s.split(sep)` for a one-character separator (`"" -> [""]`,
`"/" -> ["", ""]`, `"a/b" -> ["a", "b"]`). -/
def splitOnChar (sep : Char) (s : String) : List String :=
  splitOnCharGo sep s.toList []

/-- Python `s.endswith(suffix)`. -/
def strEndsWith (s suffix : String) : Bool :=
  decide (suffix.toList.length ≤ s.toList.length) &&
    (s.toList.drop (s.toList.length - suffix.toList.length) == suffix.toList)

/-- Python `s.startswith(p)`. -/
def strStartsWith (s p : String) : Bool :=
  s.toList.take p.toList.length == p.toList

/-- Python `s.lower()` for the ASCII strings (URLs) this pipeline handles. -/
def strToLower (s : String) : String :=
  String.mk (s.toList.map Char.toLower)

/-! ## Streaming download (`providers/http_provider.py`, `_download_http`) -/

/-- The chunk loop of `_download_http`: empty chunks are skipped, the running
total is bumped by each chunk length and checked strictly against the cap
before the chunk is written.  Returns the total bytes written. -/
def downloadLoop (maxBytes : Nat) : Nat → List Nat → Except String Nat
  | total, [] => Except.ok total
  | total, c :: rest =>
    if c = 0 then downloadLoop maxBytes total rest
    else if total + c > maxBytes then Except.error "Download too large"
    else downloadLoop maxBytes (total + c) rest

/-- `_download_http` over the stream of chunk sizes. -/
def download_http (maxBytes : Nat) (chunks : List Nat) : Except String Nat :=
  downloadLoop maxBytes 0 chunks

/-! ## Safe zip extraction (`services/ingestion/prepare.py`, `_safe_extract_zip`) -/

/-- One zip member: its `filename` and uncompressed `file_size`. -/
structure ZipMember where
  filename : String
  fileSize : Nat
deriving DecidableEq

/-- The zip-slip test of `_safe_extract_zip`:
`Path(member.filename).is_absolute() or ".." in Path(member.filename).parts`.
For POSIX paths, absolute means a leading `/`, and a `..` path part is a
segment between slashes equal to `".."`. -/
def memberSkipped (m : ZipMember) : Bool :=
  strStartsWith m.filename "/" || (splitOnChar '/' m.filename).contains ".."

/-- The member loop of `_safe_extract_zip`: skip zip-slip members, accumulate
uncompressed sizes of the rest, check strictly against the cap before
extracting, and return the extracted members in order. -/
def safeExtractLoop (maxBytes : Nat) : Nat → List ZipMember → List ZipMember →
    Except String (List ZipMember)
  | _, acc, [] => Except.ok acc.reverse
  | extracted, acc, m :: rest =>
    if memberSkipped m then safeExtractLoop maxBytes extracted acc rest
    else if extracted + m.fileSize > maxBytes then Except.error "Extracted data too large"
    else safeExtractLoop maxBytes (extracted + m.fileSize) (m :: acc) rest

/-- `_safe_extract_zip` over the archive member list. -/
def safe_extract_zip (maxBytes : Nat) (members : List ZipMember) :
    Except String (List ZipMember) :=
  safeExtractLoop maxBytes 0 [] members

/-- The members surviving the zip-slip test. -/
def goodMembers (members : List ZipMember) : List ZipMember :=
  members.filter (fun m => !memberSkipped m)

/-- Cumulative uncompressed size of the members that get extracted. -/
def goodSize (members : List ZipMember) : Nat :=
  ((goodMembers members).map ZipMember.fileSize).sum

/-- Path segments of a POSIX path string (empty and `.` segments vanish in
`Path.parts`). -/
def segsOf (s : String) : List String :=
  (splitOnChar '/' s).filter (fun t => t != "" && t != ".")

/-- Resolution of a relative path against a base directory: `..` pops one
directory, any other segment descends. -/
def resolveSegs (base : List String) : List String → List String
  | [] => base
  | s :: rest =>
    if s = ".." then resolveSegs base.dropLast rest else resolveSegs (base ++ [s]) rest

/-! ## Safe download name (`prepare.py`, `_safe_name_from_url`) -/

/-- Python `str.isalnum` for one character.  Python's predicate is
Unicode-aware; this model implements it exactly for code points up to
`U+00FF`: the ASCII alphanumerics, and the Latin-1 supplement characters
Python classifies as alphanumeric (the ordinal indicators `U+00AA`/`U+00BA`,
the superscript digits `U+00B2`/`U+00B3`/`U+00B9`, micro sign `U+00B5`, the
vulgar fractions `U+00BC`-`U+00BE`, and the letters `U+00C0`-`U+00FF` except
`×` and `÷`).  Above `U+00FF` the model returns false while Python may return
true; every theorem below evaluates it only below `U+0100`. -/
def pyIsAlnum (c : Char) : Bool :=
  c.isAlphanum ||
    (c.toNat == 0xAA) || (c.toNat == 0xB2) || (c.toNat == 0xB3) ||
    (c.toNat == 0xB5) || (c.toNat == 0xB9) || (c.toNat == 0xBA) ||
    (c.toNat == 0xBC) || (c.toNat == 0xBD) || (c.toNat == 0xBE) ||
    (decide (0xC0 ≤ c.toNat) && decide (c.toNat ≤ 0xD6)) ||
    (decide (0xD8 ≤ c.toNat) && decide (c.toNat ≤ 0xF6)) ||
    (decide (0xF8 ≤ c.toNat) && decide (c.toNat ≤ 0xFF))

/-- `_safe_name_from_url`, line for line: last `/`-segment (defaulting when
empty), cut at the first `?` and `#`, keep alphanumerics and `-_.+`, default
to `"download.bin"` when nothing is left. -/
def safe_name_from_url (url : String) : String :=
  let name0 := ((splitOnChar '/' url).getLast?).getD url
  let name1 := if name0 = "" then "download.bin" else name0
  let name2 := ((splitOnChar '?' name1).head?).getD name1
  let name3 := ((splitOnChar '#' name2).head?).getD name2
  let name4 := String.mk (name3.toList.filter
    (fun c => pyIsAlnum c || c == '-' || c == '_' || c == '.' || c == '+'))
  if name4 = "" then "download.bin" else name4

/-- Character class `[A-Za-z0-9_.+-]` stated from the spec wording
(`Char.isUpper`, `Char.isLower` and `Char.isDigit` are exactly the ranges
`A-Z`, `a-z` and `0-9`). -/
def specAllowedChar (c : Char) : Bool :=
  c.isUpper || c.isLower || c.isDigit || c == '_' || c == '.' || c == '+' || c == '-'

/-- Safe name computed as the spec sentence reads: final URL path segment,
stripped of query and fragment, filtered to `[A-Za-z0-9_.+-]`, defaulting to
`"download.bin"` when empty.  Spec-side definition, for comparison with
`safe_name_from_url`. -/
def specSafeName (u : String) : String :=
  let seg := ((splitOnChar '/' u).getLast?).getD u
  let noQuery := ((splitOnChar '?' seg).head?).getD seg
  let noFrag := ((splitOnChar '#' noQuery).head?).getD noQuery
  let kept := String.mk (noFrag.toList.filter specAllowedChar)
  if kept = "" then "download.bin" else kept

/-- The zip signature test `_looks_like_zip`: first four bytes of the download
equal `PK\x03\x04`; an unreadable file tests false. -/
def looks_like_zip : Option (List Nat) → Bool
  | none => false
  | some bs => bs.take 4 == [80, 75, 3, 4]

/-- Inputs of the archive decision in `prepare_dataset_workspace`. -/
structure PrepEnv where
  downloadBytes : Option (List Nat)
  resolvedUrl : String

/-- `is_zip = _looks_like_zip(download_path) or fetch.resolved_url.lower().endswith(".zip")`. -/
def prepareIsZip (env : PrepEnv) : Bool :=
  looks_like_zip env.downloadBytes || strEndsWith (strToLower env.resolvedUrl) ".zip"

/-- Where the non-archive branch of `prepare_dataset_workspace` stores the
download, relative to the dataset root: `extracted/<safe_name>`. -/
def prepareCopyRel (env : PrepEnv) : Option (List String) :=
  if prepareIsZip env then none
  else some ["extracted", safe_name_from_url env.resolvedUrl]

/-! ## Batch writer flush (`dataset_pipeline_controller.py`, `_batch_writer`) -/

/-- Values of descriptor fields as the writer sees them (it only copies them
around); the falsy test on `relpath` needs `None`, `""` and `0`. -/
inductive Val
  | strV (s : String)
  | numV (n : Int)
  | nullV
deriving DecidableEq

/-- Python falsiness for `Val`. -/
def valFalsy : Val → Bool
  | Val.strV s => s == ""
  | Val.numV n => n == 0
  | Val.nullV => true

/-- A descriptor document: association list of fields (keys are unique in the
Python dicts the pipeline builds). -/
abbrev Desc := List (String × Val)

/-- The upsert operation built per descriptor: filter key `(dataset_id,
relpath)` and the `$set` document. -/
structure UpsertOp where
  key : String × Val
  fields : Desc
deriving DecidableEq

/-- Per-descriptor body of the flush loop: `relpath = d.get("relpath")`,
`if not relpath: continue`, `c = dict(d); c.pop("_id", None)`, then an
`UpdateOne({dataset_id, relpath}, {$set: c}, upsert=True)`. -/
def opOfDesc (datasetId : String) (d : Desc) : Option UpsertOp :=
  match List.lookup "relpath" d with
  | none => none
  | some v =>
    if valFalsy v then none
    else some { key := (datasetId, v), fields := d.filter (fun p => p.1 != "_id") }

/-- The op list one flush builds from its batch. -/
def flushOps (datasetId : String) (batch : List Desc) : List UpsertOp :=
  batch.filterMap (opOfDesc datasetId)

/-- The store calls one flush performs: none when the op list is empty
(`if not ops: return`), otherwise a single unordered `bulk_write`. -/
def flushWrites (datasetId : String) (batch : List Desc) : List (List UpsertOp) :=
  let ops := flushOps datasetId batch
  if ops = [] then [] else [ops]

/-- Whether a descriptor passes the `relpath` guard of the flush loop. -/
def descGoodRelpath (d : Desc) : Bool :=
  match List.lookup "relpath" d with
  | none => false
  | some v => !valFalsy v

/-- The op a guard-passing descriptor turns into (total version of
`opOfDesc`; the default is never read for guard-passing descriptors). -/
def mkOpForced (datasetId : String) (d : Desc) : UpsertOp :=
  { key := (datasetId, (List.lookup "relpath" d).getD Val.nullV),
    fields := d.filter (fun p => p.1 != "_id") }

/-- The `files` collection keyed by `(dataset_id, relpath)`. -/
def Store := (String × Val) → Option Desc

/-- MongoDB `$set` on one document: fields of the `$set` document overwrite,
other fields survive; an upsert against a missing document creates it from the
`$set` document (the filter keys are themselves among the `$set` fields). -/
def mergeSet (prior : Option Desc) (fields : Desc) : Desc :=
  match prior with
  | none => fields
  | some p => fields ++ p.filter (fun q => !((fields.map Prod.fst).contains q.1))

/-- Apply one upsert to the store. -/
def applyOp (st : Store) (op : UpsertOp) : Store :=
  fun k => if k = op.key then some (mergeSet (st k) op.fields) else st k

/-- Apply a sequence of upserts in delivery order. -/
def applyAll (st : Store) (ops : List UpsertOp) : Store := ops.foldl applyOp st

/-- Ops agree on the `$set` document whenever they share a key. -/
def opsKeyConsistent (ops : List UpsertOp) : Prop :=
  ∀ o1 ∈ ops, ∀ o2 ∈ ops, o1.key = o2.key → o1.fields = o2.fields

/-- Descriptors of one batch are distinguished by their `relpath`. -/
def batchRelpathInjective (b : List Desc) : Prop :=
  ∀ d1 ∈ b, ∀ d2 ∈ b, List.lookup "relpath" d1 = List.lookup "relpath" d2 → d1 = d2

/-! ## Format sniffer (`services/sniff.py`) -/

/-- The DICOM header fields `_sniff_dicom` reads via `getattr(_, _, None)`. -/
structure DicomData where
  modality : Option String
  rows : Option Int
  cols : Option Int
  sopClassUid : Option String
  seriesUid : Option String
  studyUid : Option String
  bodyPart : Option String
deriving DecidableEq

/-- Everything `sniff_file` observes about a path: the lowered joined suffix
string `"".join(path.suffixes).lower()`, the `stat` size (`none` when `stat`
raises), the 132-byte DICOM magic test, and the outcomes of the three fallible
library reads, each either data or an exception message. -/
structure SniffInput where
  suffix : String
  statSize : Option Nat
  dicomMagic : Bool
  dicomRead : Except String DicomData
  niftiRead : Except String (List Int)
  imageRead : Except String (Int × Int)

/-- The descriptor dict `sniff_file` returns. -/
structure SniffResult where
  kind : String
  modality : String
  ndim : Option Int
  dims : Option (List Int)
  size_bytes : Nat
  meta : List (String × Option String)
deriving DecidableEq

/-- `size_bytes = _safe_stat_size(path)`: the stat size, 0 when `stat` raises. -/
def sniffSize (inp : SniffInput) : Nat :=
  match inp.statSize with
  | some n => n
  | none => 0

/-- The NIfTI suffix test of `sniff_file`:
`suffix.endswith(".nii") or suffix.endswith(".nii.gz")`. -/
def isNiftiSuffix (inp : SniffInput) : Bool :=
  strEndsWith inp.suffix ".nii" || strEndsWith inp.suffix ".nii.gz"

/-- The DICOM candidate test of `sniff_file`:
`_looks_like_dicom(path) or suffix.endswith(".dcm")`. -/
def isDicomCandidate (inp : SniffInput) : Bool :=
  inp.dicomMagic || strEndsWith inp.suffix ".dcm"

/-- The 2D-image suffix test of `sniff_file`. -/
def isImageSuffix (inp : SniffInput) : Bool :=
  strEndsWith inp.suffix ".png" || strEndsWith inp.suffix ".jpg" ||
  strEndsWith inp.suffix ".jpeg" || strEndsWith inp.suffix ".bmp" ||
  strEndsWith inp.suffix ".tif" || strEndsWith inp.suffix ".tiff"

/-- The final fallback descriptor of `sniff_file`. -/
def sniffUnknown (inp : SniffInput) : SniffResult :=
  { kind := "unknown", modality := "unknown", ndim := none, dims := none,
    size_bytes := sniffSize inp, meta := [] }

/-- `_sniff_nifti`: on a successful `nibabel` load report the shape, on any
exception fall back to `kind="nifti"` with no dimensions and empty meta. -/
def sniff_nifti (inp : SniffInput) (size : Nat) : SniffResult :=
  match inp.niftiRead with
  | Except.ok shape =>
    { kind := "nifti", modality := "unknown", ndim := some (shape.length : Int),
      dims := some shape, size_bytes := size, meta := [] }
  | Except.error _ =>
    { kind := "nifti", modality := "unknown", ndim := none, dims := none,
      size_bytes := size, meta := [] }

/-- `_sniff_dicom`: `None` on any exception, otherwise the header descriptor. -/
def sniff_dicom (inp : SniffInput) (size : Nat) : Option SniffResult :=
  match inp.dicomRead with
  | Except.error _ => none
  | Except.ok d =>
    some { kind := "dicom", modality := orUnknownStr d.modality, ndim := some 2,
           dims := (match d.cols, d.rows with
                    | some c, some r => some [c, r]
                    | _, _ => none),
           size_bytes := size,
           meta := [("SOPClassUID", d.sopClassUid), ("SeriesInstanceUID", d.seriesUid),
                    ("StudyInstanceUID", d.studyUid), ("BodyPartExamined", d.bodyPart)] }

/-- `_sniff_image`: dimensions from PIL when the image opens, `dims=None` on
any exception, kind `image` either way. -/
def sniff_image (inp : SniffInput) (size : Nat) : SniffResult :=
  match inp.imageRead with
  | Except.ok wh =>
    { kind := "image", modality := "unknown", ndim := some 2, dims := some [wh.1, wh.2],
      size_bytes := size, meta := [] }
  | Except.error _ =>
    { kind := "image", modality := "unknown", ndim := some 2, dims := none,
      size_bytes := size, meta := [] }

/-- `sniff_file`: suffix/magic cascade.  Every internal failure is caught, so
the function is total (the Python function cannot raise).  The source computes
`size_bytes` once up front; `sniffSize` is pure, so inlining it is equal. -/
def sniff_file (inp : SniffInput) : SniffResult :=
  if isNiftiSuffix inp then
    sniff_nifti inp (sniffSize inp)
  else
    match (if isDicomCandidate inp then sniff_dicom inp (sniffSize inp) else none) with
    | some r => r
    | none =>
      if isImageSuffix inp then sniff_image inp (sniffSize inp)
      else sniffUnknown inp

/-- Whether a sniff descriptor carries a `meta["error"]` entry. -/
def hasMetaError (r : SniffResult) : Bool :=
  (r.meta.map Prod.fst).contains "error"

/-- Concrete sniffer input: a `.nii` file whose `nibabel` load fails. -/
def niftiFailInput : SniffInput :=
  { suffix := ".nii", statSize := some 2048, dicomMagic := false,
    dicomRead := Except.error "unread", niftiRead := Except.error "nibabel load failed",
    imageRead := Except.error "unread" }

/-- Concrete sniffer input: a `.dcm` file whose `pydicom` read fails. -/
def dicomFailInput : SniffInput :=
  { suffix := ".dcm", statSize := some 4096, dicomMagic := true,
    dicomRead := Except.error "pydicom read failed", niftiRead := Except.error "unread",
    imageRead := Except.error "unread" }

/-- Concrete sniffer input: a `.png` file whose PIL open fails. -/
def imageFailInput : SniffInput :=
  { suffix := ".png", statSize := some 64, dicomMagic := false,
    dicomRead := Except.error "unread", niftiRead := Except.error "unread",
    imageRead := Except.error "PIL cannot open" }

/-- Concrete one-file walk result used as a witness run. -/
def walkOne : WalkCounters :=
  { scheduled := 1, scheduled_ext_counts := [(".png", 1)],
    duplicate_basename_count := 0, duplicate_basename_ext_counts := [] }

/-- Concrete completed task for the witness run: one 128 by 128 PNG. -/
def taskPng : CompletedTask :=
  { ext := ".png",
    doc := { kind := some "image", modality := some "unknown", seriesUid := none,
             ndim := some 2 } }

/-- Concrete run environment in which the preparer raises. -/
def envPrepFail : RunEnv :=
  { datasetId := "ds1", prepOutcome := Except.error "ValueError: no provider",
    bulkSizes := [], analyzeOutcome := none, walk := walkOne, tasks := [taskPng],
    finalizeUpdateOk := true, finalizeErrMsg := "" }

/-- Concrete descriptor with a usable relpath. -/
def descA : Desc :=
  [("dataset_id", Val.strV "ds1"), ("relpath", Val.strV "train/x.png"),
   ("kind", Val.strV "image")]

/-- Second concrete descriptor with a different relpath. -/
def descB : Desc :=
  [("dataset_id", Val.strV "ds1"), ("relpath", Val.strV "val/x.png"),
   ("kind", Val.strV "image")]

/-- Concrete descriptor whose relpath is empty (falsy). -/
def descEmptyRel : Desc :=
  [("dataset_id", Val.strV "ds1"), ("relpath", Val.strV ""), ("kind", Val.strV "image")]

/-- Concrete descriptor with no relpath field at all. -/
def descNoRel : Desc :=
  [("dataset_id", Val.strV "ds1"), ("kind", Val.strV "unknown")]

/-- The empty `files` store. -/
def emptyStore : Store := fun _ => none

/-! # Theorems -/

/-! ## Counter lemmas -/

theorem sumValues_cons (p : String × Nat) (c : Counter) :
    sumValues (p :: c) = p.2 + sumValues c := by
  simp [sumValues]

theorem sumValues_incr (c : Counter) (k : String) :
    sumValues (counterIncr c k) = sumValues c + 1 := by
  induction c with
  | nil => rfl
  | cons p rest ih =>
    obtain ⟨k0, n⟩ := p
    by_cases h : k0 = k
    · simp only [counterIncr, if_pos h, sumValues_cons]
      omega
    · simp only [counterIncr, if_neg h, sumValues_cons, ih]
      omega

theorem counterKeys_incr (c : Counter) (k : String) :
    counterKeys (counterIncr c k) =
      if k ∈ counterKeys c then counterKeys c else counterKeys c ++ [k] := by
  induction c with
  | nil => simp [counterIncr, counterKeys]
  | cons p rest ih =>
    obtain ⟨k0, n⟩ := p
    by_cases h : k0 = k
    · subst h
      simp [counterIncr, counterKeys]
    · have hne : ¬ k ∈ ([k0] : List String) := by simp [Ne.symm h]
      simp only [counterIncr, if_neg h, counterKeys, List.map_cons] at ih ⊢
      by_cases hmem : k ∈ counterKeys rest
      · simp only [counterKeys] at hmem
        simp [hmem, ih, Ne.symm h]
      · simp only [counterKeys] at hmem
        simp [hmem, ih, Ne.symm h]

theorem mem_counterKeys_incr (c : Counter) (k a : String) :
    a ∈ counterKeys (counterIncr c k) ↔ a ∈ counterKeys c ∨ a = k := by
  rw [counterKeys_incr]
  by_cases h : k ∈ counterKeys c
  · simp only [if_pos h]
    constructor
    · exact fun ha => Or.inl ha
    · rintro (ha | rfl)
      · exact ha
      · exact h
  · simp [if_neg h]

theorem nodup_counterKeys_incr (c : Counter) (k : String)
    (h : (counterKeys c).Nodup) : (counterKeys (counterIncr c k)).Nodup := by
  rw [counterKeys_incr]
  by_cases hm : k ∈ counterKeys c
  · simpa [if_pos hm] using h
  · rw [if_neg hm]
    refine List.Nodup.append h (List.nodup_singleton k) ?_
    intro a ha hb
    rw [List.mem_singleton] at hb
    subst hb
    exact hm ha

theorem counterIncr_pos (c : Counter) (k : String)
    (h : ∀ p ∈ c, 1 ≤ p.2) : ∀ p ∈ counterIncr c k, 1 ≤ p.2 := by
  induction c with
  | nil =>
    intro p hp
    simp only [counterIncr, List.mem_singleton] at hp
    simp [hp]
  | cons q rest ih =>
    obtain ⟨k0, n⟩ := q
    intro p hp
    by_cases hk : k0 = k
    · simp only [counterIncr, if_pos hk, List.mem_cons] at hp
      rcases hp with rfl | hp
      · simp
      · exact h p (List.mem_cons_of_mem _ hp)
    · simp only [counterIncr, if_neg hk, List.mem_cons] at hp
      rcases hp with rfl | hp
      · exact h (k0, n) (List.mem_cons_self _ _)
      · exact ih (fun q hq => h q (List.mem_cons_of_mem _ hq)) p hp

theorem counterOfLabels_spec (ls : List String) :
    (∀ p ∈ counterOfLabels ls, 1 ≤ p.2) ∧
    (counterKeys (counterOfLabels ls)).Nodup ∧
    (∀ a, a ∈ counterKeys (counterOfLabels ls) ↔ a ∈ ls) := by
  have main : ∀ (ls : List String) (acc : Counter),
      (∀ p ∈ acc, 1 ≤ p.2) → (counterKeys acc).Nodup →
      (∀ p ∈ ls.foldl counterIncr acc, 1 ≤ p.2) ∧
      (counterKeys (ls.foldl counterIncr acc)).Nodup ∧
      (∀ a, a ∈ counterKeys (ls.foldl counterIncr acc) ↔ a ∈ counterKeys acc ∨ a ∈ ls) := by
    intro ls
    induction ls with
    | nil =>
      intro acc hpos hnd
      refine ⟨hpos, hnd, fun a => ?_⟩
      simp
    | cons x rest ih =>
      intro acc hpos hnd
      obtain ⟨hp, hn, hm⟩ := ih (counterIncr acc x)
        (counterIncr_pos acc x hpos) (nodup_counterKeys_incr acc x hnd)
      refine ⟨hp, hn, fun a => ?_⟩
      rw [List.foldl_cons] at *
      rw [hm a, mem_counterKeys_incr]
      constructor
      · rintro ((ha | rfl) | ha)
        · exact Or.inl ha
        · exact Or.inr (List.mem_cons_self _ _)
        · exact Or.inr (List.mem_cons_of_mem _ ha)
      · rintro (ha | ha)
        · exact Or.inl (Or.inl ha)
        · rcases List.mem_cons.mp ha with rfl | ha
          · exact Or.inl (Or.inr rfl)
          · exact Or.inr ha
  obtain ⟨hp, hn, hm⟩ := main ls [] (by simp) (by simp [counterKeys])
  exact ⟨hp, hn, fun a => by rw [counterOfLabels, hm a]; simp [counterKeys]⟩

/-! ## The completion loop preserves the count invariants -/

theorem processCompleted_counts (st : CtrlState) (t : CompletedTask) :
    (processCompleted st t).modality_counts =
        counterIncr st.modality_counts (orUnknownStr t.doc.modality) ∧
    (processCompleted st t).kind_counts =
        counterIncr st.kind_counts (orUnknownStr t.doc.kind) ∧
    (processCompleted st t).total_files = st.total_files + 1 := by
  unfold processCompleted accumulate_counts
  cases t.doc.ndim with
  | none => exact ⟨rfl, rfl, rfl⟩
  | some n =>
    by_cases h3 : 3 ≤ n
    · simp [if_pos h3]
    · by_cases h2 : n = 2
      · simp [if_neg h3, if_pos h2]
      · simp [if_neg h3, if_neg h2]

theorem foldl_counts_inv (tasks : List CompletedTask) (st : CtrlState)
    (hm : sumValues st.modality_counts = st.total_files)
    (hk : sumValues st.kind_counts = st.total_files) :
    sumValues (tasks.foldl processCompleted st).modality_counts =
        (tasks.foldl processCompleted st).total_files ∧
    sumValues (tasks.foldl processCompleted st).kind_counts =
        (tasks.foldl processCompleted st).total_files := by
  induction tasks generalizing st with
  | nil => exact ⟨hm, hk⟩
  | cons t rest ih =>
    rw [List.foldl_cons]
    obtain ⟨e1, e2, e3⟩ := processCompleted_counts st t
    exact ih (processCompleted st t)
      (by rw [e1, sumValues_incr, e3, hm])
      (by rw [e2, sumValues_incr, e3, hk])

/-- C1: for every run that reaches status=ready, the summary written at
finalize satisfies `sum(modality_counts.values()) == total_files` and
`sum(kind_counts.values()) == total_files`: every completed analyzer task
increments `total_files` exactly once and `accumulate_counts` adds exactly one
modality label and one kind label. -/
theorem spec_C1 (w : WalkCounters) (tasks : List CompletedTask) :
    counterSumAt (summaryDict (finalizeVolume
        (tasks.foldl processCompleted (initAfterWalk w)))) "modality_counts" =
      natAt (summaryDict (finalizeVolume
        (tasks.foldl processCompleted (initAfterWalk w)))) "total_files" ∧
    counterSumAt (summaryDict (finalizeVolume
        (tasks.foldl processCompleted (initAfterWalk w)))) "kind_counts" =
      natAt (summaryDict (finalizeVolume
        (tasks.foldl processCompleted (initAfterWalk w)))) "total_files" := by
  obtain ⟨h1, h2⟩ := foldl_counts_inv tasks (initAfterWalk w) rfl rfl
  set st := tasks.foldl processCompleted (initAfterWalk w) with hst
  have em : counterSumAt (summaryDict (finalizeVolume st)) "modality_counts" =
      some (sumValues st.modality_counts) := rfl
  have ek : counterSumAt (summaryDict (finalizeVolume st)) "kind_counts" =
      some (sumValues st.kind_counts) := rfl
  have et : natAt (summaryDict (finalizeVolume st)) "total_files" =
      some st.total_files := rfl
  rw [em, ek, et, h1, h2]
  exact ⟨rfl, rfl⟩

/-- C8: for every multiset of per-file modality labels, `mixed_modality` is
true iff strictly more than one modality label different from `"unknown"` has
a count greater than zero (the labels with positive count are exactly the
distinct labels of the multiset). -/
theorem spec_C8 (ls : List String) :
    is_mixed_modality (counterOfLabels ls) = true ↔
      1 < (ls.dedup.filter (fun m => decide (m ≠ "unknown"))).length := by
  obtain ⟨hpos, hnd, hmem⟩ := counterOfLabels_spec ls
  unfold is_mixed_modality
  rw [decide_eq_true_eq]
  have h1 : (counterOfLabels ls).filter (fun p => decide (0 < p.2 ∧ p.1 ≠ "unknown")) =
      (counterOfLabels ls).filter (fun p => decide (p.1 ≠ "unknown")) := by
    apply List.filter_congr
    intro p hp
    have hp2 : 0 < p.2 := hpos p hp
    simp [hp2]
  have h2 : (counterKeys (counterOfLabels ls)).filter (fun k => decide (k ≠ "unknown")) =
      ((counterOfLabels ls).filter (fun p => decide (p.1 ≠ "unknown"))).map Prod.fst := by
    rw [counterKeys, List.filter_map]
    rfl
  have hperm : (counterKeys (counterOfLabels ls)).Perm ls.dedup :=
    (List.perm_ext_iff_of_nodup hnd (List.nodup_dedup ls)).mpr
      (fun a => by rw [hmem a, List.mem_dedup])
  have h4 := (hperm.filter (fun k => decide (k ≠ "unknown"))).length_eq
  rw [h2, List.length_map] at h4
  rw [h1, h4]

/-! ## The persisted summary and its keys (C6) -/

/-- C6 counterexample: a concrete run reaching the finalize write (one
scheduled and completed PNG) persists a summary with no `scheduled_files`
entry even though the `scheduled` counter is 1. -/
theorem spec_C6_cex :
    List.lookup "scheduled_files"
      (summaryDict (finalizeVolume
        (([taskPng]).foldl processCompleted (initAfterWalk walkOne)))) = none ∧
    (finalizeVolume
        (([taskPng]).foldl processCompleted (initAfterWalk walkOne))).scheduled = 1 := by
  exact ⟨rfl, rfl⟩

/-- C6 (amended): the summary persisted when a dataset becomes ready contains
exactly the eleven keys of the `_stage_finalize` dict literal; in particular it
never contains a `scheduled_files` field (the `scheduled` counter is tracked in
memory but not persisted). -/
theorem spec_C6_amended (st : CtrlState) :
    (summaryDict st).map Prod.fst =
      ["total_files", "modality_counts", "modalities", "mixed_modality", "outliers",
       "kind_counts", "ext_counts", "duplicate_basename_count",
       "duplicate_basename_ext_counts", "image_2d_count", "volume_3d_count"] ∧
    List.lookup "scheduled_files" (summaryDict st) = none := by
  exact ⟨rfl, rfl⟩

/-! ## Failure path of the controller (C2) -/

theorem filter_map_bulk (ns : List Nat) (p : DbEffect → Bool)
    (hp : ∀ n, p (DbEffect.bulkWriteFiles n) = false) :
    (ns.map DbEffect.bulkWriteFiles).filter p = [] := by
  rw [List.filter_eq_nil_iff]
  intro a ha
  obtain ⟨n, _, rfl⟩ := List.mem_map.mp ha
  simp [hp n]

/-- C2: whenever an exception escapes a pipeline stage to `run`, the effect
trace contains no `datasets` update carrying a `summary` key, and exactly one
failure update, setting `status=failed`, `meta.stage=failed` and
`meta.last_error` to the exception string. -/
theorem spec_C2 (env : RunEnv) (msg : String) (h : runOutcome env = some msg) :
    (runPipeline env).filter isSummaryWrite = [] ∧
    (runPipeline env).filter isFailureUpdate = [failUpdate msg] := by
  have s1 : isSummaryWrite updProcessing = false := rfl
  have s2 : ∀ p, isSummaryWrite (updResolution p) = false := fun _ => rfl
  have s3 : ∀ m, isSummaryWrite (failUpdate m) = false := fun _ => rfl
  have s4 : ∀ ds, isSummaryWrite (DbEffect.deleteFilesFor ds) = false := fun _ => rfl
  have s5 : ∀ n, isSummaryWrite (DbEffect.bulkWriteFiles n) = false := fun _ => rfl
  have f1 : isFailureUpdate updProcessing = false := rfl
  have f2 : ∀ p, isFailureUpdate (updResolution p) = false := fun _ => rfl
  have f3 : ∀ m, isFailureUpdate (failUpdate m) = true := fun _ => rfl
  have f4 : ∀ ds, isFailureUpdate (DbEffect.deleteFilesFor ds) = false := fun _ => rfl
  have f5 : ∀ n, isFailureUpdate (DbEffect.bulkWriteFiles n) = false := fun _ => rfl
  rcases henv : env.prepOutcome with e | p
  · have hmsg : e = msg := by
      simpa [runOutcome, stagePrepareRun, henv] using h
    subst hmsg
    constructor
    · simp [runPipeline, stagePrepareRun, henv, List.filter_append, s1, s3]
    · simp [runPipeline, stagePrepareRun, henv, List.filter_append, f1, f3]
  · rcases ha : env.analyzeOutcome with _ | msg2
    · rcases hf : env.finalizeUpdateOk with _ | _
      · have hmsg : env.finalizeErrMsg = msg := by
          simpa [runOutcome, stagePrepareRun, henv, stageAnalyzeRun, ha,
                 stageFinalizeRun, hf] using h
        subst hmsg
        constructor
        · simp [runPipeline, stagePrepareRun, henv, stageAnalyzeRun, ha,
                stageFinalizeRun, hf, List.filter_append, s1, s2, s3, s4,
                filter_map_bulk env.bulkSizes isSummaryWrite s5]
        · simp [runPipeline, stagePrepareRun, henv, stageAnalyzeRun, ha,
                stageFinalizeRun, hf, List.filter_append, f1, f2, f3, f4,
                filter_map_bulk env.bulkSizes isFailureUpdate f5]
      · exfalso
        simp [runOutcome, stagePrepareRun, henv, stageAnalyzeRun, ha,
              stageFinalizeRun, hf] at h
    · have hmsg : msg2 = msg := by
        simpa [runOutcome, stagePrepareRun, henv, stageAnalyzeRun, ha] using h
      subst hmsg
      constructor
      · simp [runPipeline, stagePrepareRun, henv, stageAnalyzeRun, ha,
              List.filter_append, s1, s2, s3, s4,
              filter_map_bulk env.bulkSizes isSummaryWrite s5]
      · simp [runPipeline, stagePrepareRun, henv, stageAnalyzeRun, ha,
              List.filter_append, f1, f2, f3, f4,
              filter_map_bulk env.bulkSizes isFailureUpdate f5]

/-- C2 witness: in the concrete environment where the preparer raises, the
trace has no summary write and exactly the one failure update. -/
theorem spec_C2_witness :
    (runPipeline envPrepFail).filter isSummaryWrite = [] ∧
    (runPipeline envPrepFail).filter isFailureUpdate =
      [failUpdate "ValueError: no provider"] :=
  spec_C2 envPrepFail "ValueError: no provider" rfl

/-! ## Download and extraction caps (C3) -/

theorem downloadLoop_ok (maxB : Nat) (chunks : List Nat) (total : Nat)
    (h : total + chunks.sum ≤ maxB) :
    downloadLoop maxB total chunks = Except.ok (total + chunks.sum) := by
  induction chunks generalizing total with
  | nil => simp [downloadLoop]
  | cons c rest ih =>
    rw [downloadLoop]
    by_cases hc : c = 0
    · subst hc
      rw [if_pos rfl]
      rw [ih total (by simp at h; omega)]
      simp
    · rw [if_neg hc]
      have hle : ¬ total + c > maxB := by simp at h ⊢; omega
      rw [if_neg hle]
      rw [ih (total + c) (by simp at h ⊢; omega)]
      congr 1
      simp
      omega

theorem downloadLoop_err (maxB : Nat) (chunks : List Nat) (total : Nat)
    (ht : total ≤ maxB) (h : maxB < total + chunks.sum) :
    downloadLoop maxB total chunks = Except.error "Download too large" := by
  induction chunks generalizing total with
  | nil => simp at h; omega
  | cons c rest ih =>
    rw [downloadLoop]
    by_cases hc : c = 0
    · subst hc
      rw [if_pos rfl]
      exact ih total ht (by simp at h ⊢; omega)
    · rw [if_neg hc]
      by_cases hgt : total + c > maxB
      · rw [if_pos hgt]
      · rw [if_neg hgt]
        exact ih (total + c) (by omega) (by simp at h ⊢; omega)

theorem goodMembers_cons_skip (m : ZipMember) (rest : List ZipMember)
    (h : memberSkipped m = true) : goodMembers (m :: rest) = goodMembers rest := by
  simp [goodMembers, h]

theorem goodMembers_cons_keep (m : ZipMember) (rest : List ZipMember)
    (h : memberSkipped m = false) : goodMembers (m :: rest) = m :: goodMembers rest := by
  simp [goodMembers, h]

theorem safeExtractLoop_ok (maxB : Nat) (members : List ZipMember)
    (extracted : Nat) (acc : List ZipMember)
    (h : extracted + ((goodMembers members).map ZipMember.fileSize).sum ≤ maxB) :
    safeExtractLoop maxB extracted acc members =
      Except.ok (acc.reverse ++ goodMembers members) := by
  induction members generalizing extracted acc with
  | nil => simp [safeExtractLoop, goodMembers]
  | cons m rest ih =>
    rw [safeExtractLoop]
    by_cases hs : memberSkipped m = true
    · rw [if_pos hs, goodMembers_cons_skip m rest hs]
      rw [goodMembers_cons_skip m rest hs] at h
      exact ih extracted acc h
    · have hs2 : memberSkipped m = false := by
        cases hval : memberSkipped m
        · rfl
        · exact absurd hval hs
      rw [if_neg hs, goodMembers_cons_keep m rest hs2]
      rw [goodMembers_cons_keep m rest hs2] at h
      simp only [List.map_cons, List.sum_cons] at h
      have hle : ¬ extracted + m.fileSize > maxB := by omega
      rw [if_neg hle]
      rw [ih (extracted + m.fileSize) (m :: acc) (by omega)]
      simp

theorem safeExtractLoop_err (maxB : Nat) (members : List ZipMember)
    (extracted : Nat) (acc : List ZipMember) (ht : extracted ≤ maxB)
    (h : maxB < extracted + ((goodMembers members).map ZipMember.fileSize).sum) :
    safeExtractLoop maxB extracted acc members =
      Except.error "Extracted data too large" := by
  induction members generalizing extracted acc with
  | nil => simp [goodMembers] at h; omega
  | cons m rest ih =>
    rw [safeExtractLoop]
    by_cases hs : memberSkipped m = true
    · rw [if_pos hs]
      rw [goodMembers_cons_skip m rest hs] at h
      exact ih extracted acc ht h
    · have hs2 : memberSkipped m = false := by
        cases hval : memberSkipped m
        · rfl
        · exact absurd hval hs
      rw [if_neg hs]
      rw [goodMembers_cons_keep m rest hs2] at h
      simp only [List.map_cons, List.sum_cons] at h
      by_cases hgt : extracted + m.fileSize > maxB
      · rw [if_pos hgt]
      · rw [if_neg hgt]
        exact ih (extracted + m.fileSize) (m :: acc) (by omega) (by omega)

/-- C3: a download whose cumulative streamed byte count is at most (in
particular, equals) `max_download_bytes` succeeds, one byte more raises
`Download too large`; an archive whose cumulative uncompressed member size is
at most (in particular, equals) `max_extracted_bytes` extracts fully, one byte
more raises `Extracted data too large`: both checks are strict greater-than
against the cap. -/
theorem spec_C3 (maxD : Nat) (chunks : List Nat) (maxE : Nat) (members : List ZipMember) :
    (chunks.sum ≤ maxD → download_http maxD chunks = Except.ok chunks.sum) ∧
    (maxD < chunks.sum → download_http maxD chunks = Except.error "Download too large") ∧
    (goodSize members ≤ maxE →
      safe_extract_zip maxE members = Except.ok (goodMembers members)) ∧
    (maxE < goodSize members →
      safe_extract_zip maxE members = Except.error "Extracted data too large") := by
  refine ⟨fun h => ?_, fun h => ?_, fun h => ?_, fun h => ?_⟩
  · have hd := downloadLoop_ok maxD chunks 0 (by omega)
    simpa [download_http] using hd
  · exact downloadLoop_err maxD chunks 0 (Nat.zero_le maxD) (by omega)
  · have he := safeExtractLoop_ok maxE members 0 []
      (by simpa [goodSize] using h)
    simpa [safe_extract_zip] using he
  · exact safeExtractLoop_err maxE members 0 [] (Nat.zero_le maxE)
      (by simpa [goodSize] using h)

/-- C3 witness: at cap 5, chunks summing to 5 download fine and chunks summing
to 6 raise; at cap 4, a 4-byte archive extracts and a 5-byte archive raises. -/
theorem spec_C3_witness :
    download_http 5 [3, 2] = Except.ok 5 ∧
    download_http 5 [3, 3] = Except.error "Download too large" ∧
    safe_extract_zip 4 [ZipMember.mk "a.png" 4] =
      Except.ok [ZipMember.mk "a.png" 4] ∧
    safe_extract_zip 4 [ZipMember.mk "a.png" 5] =
      Except.error "Extracted data too large" :=
  ⟨(spec_C3 5 [3, 2] 4 [ZipMember.mk "a.png" 4]).1 (by decide),
   (spec_C3 5 [3, 3] 4 [ZipMember.mk "a.png" 4]).2.1 (by decide),
   (spec_C3 5 [3, 2] 4 [ZipMember.mk "a.png" 4]).2.2.1 (by decide),
   (spec_C3 5 [3, 2] 4 [ZipMember.mk "a.png" 5]).2.2.2 (by decide)⟩

/-! ## Zip-slip defence (C4) -/

theorem safeExtractLoop_skip_transparent (maxB : Nat) (members : List ZipMember)
    (extracted : Nat) (acc : List ZipMember) :
    safeExtractLoop maxB extracted acc members =
      safeExtractLoop maxB extracted acc (goodMembers members) := by
  induction members generalizing extracted acc with
  | nil => simp [goodMembers]
  | cons m rest ih =>
    by_cases hs : memberSkipped m = true
    · rw [goodMembers_cons_skip m rest hs, safeExtractLoop, if_pos hs]
      exact ih extracted acc
    · have hs2 : memberSkipped m = false := by
        cases hval : memberSkipped m
        · rfl
        · exact absurd hval hs
      rw [goodMembers_cons_keep m rest hs2]
      rw [safeExtractLoop, safeExtractLoop, if_neg hs, if_neg hs]
      by_cases hgt : extracted + m.fileSize > maxB
      · rw [if_pos hgt, if_pos hgt]
      · rw [if_neg hgt, if_neg hgt]
        exact ih (extracted + m.fileSize) (m :: acc)

theorem safeExtractLoop_ok_shape (maxB : Nat) (members : List ZipMember)
    (extracted : Nat) (acc l : List ZipMember)
    (h : safeExtractLoop maxB extracted acc members = Except.ok l) :
    l = acc.reverse ++ goodMembers members := by
  induction members generalizing extracted acc with
  | nil =>
    simp [safeExtractLoop] at h
    simp [goodMembers, h.symm]
  | cons m rest ih =>
    rw [safeExtractLoop] at h
    by_cases hs : memberSkipped m = true
    · rw [if_pos hs] at h
      rw [goodMembers_cons_skip m rest hs]
      exact ih extracted acc h
    · have hs2 : memberSkipped m = false := by
        cases hval : memberSkipped m
        · rfl
        · exact absurd hval hs
      rw [if_neg hs] at h
      by_cases hgt : extracted + m.fileSize > maxB
      · rw [if_pos hgt] at h
        exact absurd h (by simp)
      · rw [if_neg hgt] at h
        rw [goodMembers_cons_keep m rest hs2]
        have := ih (extracted + m.fileSize) (m :: acc) h
        simpa using this

theorem resolveSegs_no_dotdot (segs : List String) (base : List String)
    (h : ".." ∉ segs) : resolveSegs base segs = base ++ segs := by
  induction segs generalizing base with
  | nil => simp [resolveSegs]
  | cons s rest ih =>
    have hne : s ≠ ".." := fun he => h (he ▸ List.mem_cons_self s rest)
    rw [resolveSegs, if_neg hne, ih (base ++ [s]) (fun hm => h (List.mem_cons_of_mem s hm))]
    simp

theorem not_dotdot_of_not_skipped (m : ZipMember) (h : memberSkipped m = false) :
    ".." ∉ segsOf m.filename := by
  intro hmem
  have h2 : ".." ∈ splitOnChar '/' m.filename := List.mem_of_mem_filter hmem
  simp [memberSkipped] at h
  exact absurd (by simpa using h2) (by simp [h.2])

/-- C4: zip-slip members (absolute path or a `..` segment) are never extracted
and are fully transparent to extraction: the result over any member list
equals the result over the safe members alone (so a bad member cannot fail the
dataset), and every extracted member resolves to a path under the destination
directory. -/
theorem spec_C4 (maxB : Nat) (members : List ZipMember) (dest : List String) :
    safe_extract_zip maxB members = safe_extract_zip maxB (goodMembers members) ∧
    (∀ l, safe_extract_zip maxB members = Except.ok l →
      l = goodMembers members ∧
      ∀ m ∈ l, memberSkipped m = false ∧
        resolveSegs dest (segsOf m.filename) = dest ++ segsOf m.filename) := by
  constructor
  · exact safeExtractLoop_skip_transparent maxB members 0 []
  · intro l hl
    have hshape := safeExtractLoop_ok_shape maxB members 0 [] l hl
    simp only [List.reverse_nil, List.nil_append] at hshape
    refine ⟨hshape, fun m hm => ?_⟩
    rw [hshape] at hm
    have hgood : memberSkipped m = false := by
      have := List.mem_filter.mp hm
      simpa using this.2
    exact ⟨hgood, resolveSegs_no_dotdot (segsOf m.filename) dest
      (not_dotdot_of_not_skipped m hgood)⟩

/-- C4 witness: the archive `[ok.png, ../evil.sh]` extracts exactly `ok.png`,
`../evil.sh` is skipped, extraction equals extraction of the safe members and
the extracted path stays under `extracted/`. -/
theorem spec_C4_witness :
    safe_extract_zip 10 [ZipMember.mk "ok.png" 3, ZipMember.mk "../evil.sh" 3] =
      safe_extract_zip 10 (goodMembers [ZipMember.mk "ok.png" 3, ZipMember.mk "../evil.sh" 3]) ∧
    ([ZipMember.mk "ok.png" 3] =
      goodMembers [ZipMember.mk "ok.png" 3, ZipMember.mk "../evil.sh" 3] ∧
    ∀ m ∈ [ZipMember.mk "ok.png" 3], memberSkipped m = false ∧
      resolveSegs ["extracted"] (segsOf m.filename) = ["extracted"] ++ segsOf m.filename) :=
  ⟨(spec_C4 10 [ZipMember.mk "ok.png" 3, ZipMember.mk "../evil.sh" 3] ["extracted"]).1,
   (spec_C4 10 [ZipMember.mk "ok.png" 3, ZipMember.mk "../evil.sh" 3] ["extracted"]).2
     [ZipMember.mk "ok.png" 3] rfl⟩

/-! ## Safe download name (C9) -/

theorem mem_of_headOpt {α : Type} {l : List α} {a : α} (h : l.head? = some a) :
    a ∈ l := by
  cases l with
  | nil => simp at h
  | cons x rest =>
    simp only [List.head?_cons, Option.some_inj] at h
    simp [h]

theorem mem_of_getLastOpt {α : Type} {l : List α} {a : α} (h : l.getLast? = some a) :
    a ∈ l := by
  have h2 : l.reverse.head? = some a := by rw [List.head?_reverse]; exact h
  simpa using mem_of_headOpt h2

theorem splitOnCharGo_chars (sep : Char) :
    ∀ (cs cur : List Char) (t : String), t ∈ splitOnCharGo sep cs cur →
      ∀ c ∈ t.toList, c ∈ cs ∨ c ∈ cur := by
  intro cs
  induction cs with
  | nil =>
    intro cur t ht c hc
    simp only [splitOnCharGo, List.mem_singleton] at ht
    subst ht
    exact Or.inr (List.mem_reverse.mp (by simpa using hc))
  | cons c0 rest ih =>
    intro cur t ht c hc
    by_cases hsep : (c0 == sep) = true
    · rw [splitOnCharGo, if_pos hsep] at ht
      rcases List.mem_cons.mp ht with rfl | ht2
      · exact Or.inr (List.mem_reverse.mp (by simpa using hc))
      · rcases ih [] t ht2 c hc with h1 | h2
        · exact Or.inl (List.mem_cons_of_mem c0 h1)
        · simp at h2
    · rw [splitOnCharGo, if_neg hsep] at ht
      rcases ih (c0 :: cur) t ht c hc with h1 | h2
      · exact Or.inl (List.mem_cons_of_mem c0 h1)
      · rcases List.mem_cons.mp h2 with hc0 | h3
        · exact Or.inl (by rw [hc0]; exact List.mem_cons_self c0 rest)
        · exact Or.inr h3

theorem splitOnChar_chars (sep : Char) (s t : String)
    (ht : t ∈ splitOnChar sep s) : ∀ c ∈ t.toList, c ∈ s.toList := by
  intro c hc
  rcases splitOnCharGo_chars sep s.toList [] t ht c hc with h1 | h2
  · exact h1
  · simp at h2

theorem getD_last_chars (u : String) (h : ∀ c ∈ u.toList, c.toNat < 128) :
    ∀ c ∈ (((splitOnChar '/' u).getLast?).getD u).toList, c.toNat < 128 := by
  cases hgl : (splitOnChar '/' u).getLast? with
  | none => exact h
  | some t =>
    intro c hc
    exact h c (splitOnChar_chars '/' u t (mem_of_getLastOpt hgl) c hc)

theorem getD_head_chars (s : String) (sep : Char)
    (h : ∀ c ∈ s.toList, c.toNat < 128) :
    ∀ c ∈ (((splitOnChar sep s).head?).getD s).toList, c.toNat < 128 := by
  cases hh : (splitOnChar sep s).head? with
  | none => exact h
  | some t =>
    intro c hc
    exact h c (splitOnChar_chars sep s t (mem_of_headOpt hh) c hc)

theorem pyIsAlnum_ascii (c : Char) (h : c.toNat < 128) :
    pyIsAlnum c = c.isAlphanum := by
  unfold pyIsAlnum
  have e1 : (c.toNat == 0xAA) = false := by rw [beq_eq_false_iff_ne]; omega
  have e2 : (c.toNat == 0xB2) = false := by rw [beq_eq_false_iff_ne]; omega
  have e3 : (c.toNat == 0xB3) = false := by rw [beq_eq_false_iff_ne]; omega
  have e4 : (c.toNat == 0xB5) = false := by rw [beq_eq_false_iff_ne]; omega
  have e5 : (c.toNat == 0xB9) = false := by rw [beq_eq_false_iff_ne]; omega
  have e6 : (c.toNat == 0xBA) = false := by rw [beq_eq_false_iff_ne]; omega
  have e7 : (c.toNat == 0xBC) = false := by rw [beq_eq_false_iff_ne]; omega
  have e8 : (c.toNat == 0xBD) = false := by rw [beq_eq_false_iff_ne]; omega
  have e9 : (c.toNat == 0xBE) = false := by rw [beq_eq_false_iff_ne]; omega
  have r1 : decide (0xC0 ≤ c.toNat) = false := by rw [decide_eq_false_iff_not]; omega
  have r2 : decide (0xD8 ≤ c.toNat) = false := by rw [decide_eq_false_iff_not]; omega
  have r3 : decide (0xF8 ≤ c.toNat) = false := by rw [decide_eq_false_iff_not]; omega
  rw [e1, e2, e3, e4, e5, e6, e7, e8, e9, r1, r2, r3]
  simp

theorem allowedChar_eq_ascii (c : Char) (h : c.toNat < 128) :
    (pyIsAlnum c || c == '-' || c == '_' || c == '.' || c == '+') = specAllowedChar c := by
  rw [pyIsAlnum_ascii c h]
  simp only [Char.isAlphanum, Char.isAlpha, specAllowedChar]
  cases c.isUpper <;> cases c.isLower <;> cases c.isDigit <;>
    cases c == '-' <;> cases c == '_' <;> cases c == '.' <;> cases c == '+' <;> rfl

theorem safe_name_eq_spec_ascii (u : String) (h : ∀ c ∈ u.toList, c.toNat < 128) :
    safe_name_from_url u = specSafeName u := by
  simp only [safe_name_from_url, specSafeName]
  by_cases h0 : ((splitOnChar '/' u).getLast?).getD u = ""
  · rw [h0]
    rfl
  · rw [if_neg h0]
    set s1 := ((splitOnChar '/' u).getLast?).getD u with hs1def
    set s2 := ((splitOnChar '?' s1).head?).getD s1 with hs2def
    set s3 := ((splitOnChar '#' s2).head?).getD s2 with hs3def
    have hs1 : ∀ c ∈ s1.toList, c.toNat < 128 := getD_last_chars u h
    have hs2 : ∀ c ∈ s2.toList, c.toNat < 128 := getD_head_chars s1 '?' hs1
    have hs3 : ∀ c ∈ s3.toList, c.toNat < 128 := getD_head_chars s2 '#' hs2
    have hfilter : s3.toList.filter
        (fun c => pyIsAlnum c || c == '-' || c == '_' || c == '.' || c == '+') =
        s3.toList.filter specAllowedChar :=
      List.filter_congr (fun c hc => allowedChar_eq_ascii c (hs3 c hc))
    rw [hfilter]

/-- C9 counterexample: for the resolved URL `http://h/xé` the program keeps
the non-ASCII letter `é` (Python `str.isalnum` is Unicode-aware) and stores
`extracted/xé`, while the claim computation over `[A-Za-z0-9_.+-]` yields
`x`. -/
theorem spec_C9_cex :
    safe_name_from_url "http://h/xé" = "xé" ∧
    specSafeName "http://h/xé" = "x" ∧
    prepareCopyRel (PrepEnv.mk (some [1, 2, 3, 4]) "http://h/xé") =
      some ["extracted", "xé"] ∧
    safe_name_from_url "http://h/xé" ≠ specSafeName "http://h/xé" := by
  refine ⟨rfl, rfl, rfl, ?_⟩
  decide

/-- C9 (amended): for a non-archive download whose resolved URL consists of
ASCII characters, the file is stored at `extracted/<safe_name>` where
`safe_name` is exactly the spec computation: final URL path segment, query and
fragment stripped, characters outside `[A-Za-z0-9_.+-]` dropped, defaulting to
`download.bin` when empty.  On non-ASCII URLs the program and the claim
computation diverge, because Python `str.isalnum` also keeps non-ASCII
alphanumerics. -/
theorem spec_C9_amended (env : PrepEnv)
    (hascii : ∀ c ∈ env.resolvedUrl.toList, c.toNat < 128) :
    safe_name_from_url env.resolvedUrl = specSafeName env.resolvedUrl ∧
    (prepareIsZip env = false →
      prepareCopyRel env = some ["extracted", specSafeName env.resolvedUrl]) := by
  refine ⟨safe_name_eq_spec_ascii env.resolvedUrl hascii, fun hz => ?_⟩
  rw [prepareCopyRel, if_neg (by simp [hz]), safe_name_eq_spec_ascii env.resolvedUrl hascii]

/-- C9 amended witness: a concrete ASCII non-archive download of
`http://h/brain.nii.gz?dl=1#frag` is stored at `extracted/brain.nii.gz`. -/
theorem spec_C9_amended_witness :
    safe_name_from_url "http://h/brain.nii.gz?dl=1#frag" =
      specSafeName "http://h/brain.nii.gz?dl=1#frag" ∧
    prepareCopyRel (PrepEnv.mk (some [1, 2, 3, 4]) "http://h/brain.nii.gz?dl=1#frag") =
      some ["extracted", specSafeName "http://h/brain.nii.gz?dl=1#frag"] :=
  ⟨(spec_C9_amended (PrepEnv.mk (some [1, 2, 3, 4]) "http://h/brain.nii.gz?dl=1#frag")
      (by decide)).1,
   (spec_C9_amended (PrepEnv.mk (some [1, 2, 3, 4]) "http://h/brain.nii.gz?dl=1#frag")
      (by decide)).2 (by decide)⟩

/-! ## Batch-writer relpath guard (C10) -/

theorem opOfDesc_good (dsId : String) (d : Desc) (h : descGoodRelpath d = true) :
    opOfDesc dsId d = some (mkOpForced dsId d) := by
  unfold descGoodRelpath at h
  unfold opOfDesc mkOpForced
  cases hl : List.lookup "relpath" d with
  | none => rw [hl] at h; exact absurd h (by simp)
  | some v =>
    rw [hl] at h
    simp only [Bool.not_eq_true'] at h
    simp [h]

theorem opOfDesc_bad (dsId : String) (d : Desc) (h : descGoodRelpath d = false) :
    opOfDesc dsId d = none := by
  unfold descGoodRelpath at h
  unfold opOfDesc
  cases hl : List.lookup "relpath" d with
  | none => rfl
  | some v =>
    rw [hl] at h
    simp at h
    simp [h]

theorem flushOps_eq (dsId : String) (batch : List Desc) :
    flushOps dsId batch = (batch.filter descGoodRelpath).map (mkOpForced dsId) := by
  induction batch with
  | nil => rfl
  | cons d rest ih =>
    rw [flushOps, List.filterMap_cons]
    cases hd : descGoodRelpath d with
    | true =>
      rw [opOfDesc_good dsId d hd, List.filter_cons_of_pos hd]
      rw [List.map_cons]
      rw [flushOps] at ih
      rw [ih]
    | false =>
      rw [opOfDesc_bad dsId d hd, List.filter_cons_of_neg (by simp [hd])]
      rw [flushOps] at ih
      rw [ih]

/-- C10: a descriptor whose `relpath` is missing or empty contributes no upsert
op (so it is never persisted) while every other descriptor of the batch
contributes exactly its op, in order; a batch of only such descriptors
performs no store write at all. -/
theorem spec_C10 (dsId : String) (batch : List Desc) :
    flushOps dsId batch = (batch.filter descGoodRelpath).map (mkOpForced dsId) ∧
    ((∀ d ∈ batch, descGoodRelpath d = false) → flushWrites dsId batch = []) := by
  refine ⟨flushOps_eq dsId batch, fun hall => ?_⟩
  have hops : flushOps dsId batch = [] := by
    rw [flushOps_eq]
    have : batch.filter descGoodRelpath = [] :=
      List.filter_eq_nil_iff.mpr (fun d hd => by simp [hall d hd])
    rw [this, List.map_nil]
  simp [flushWrites, hops]

/-- C10 witness: a batch holding one descriptor with no relpath field and one
with an empty relpath yields no ops and no store write. -/
theorem spec_C10_witness :
    flushOps "ds1" [descNoRel, descEmptyRel] =
      (([descNoRel, descEmptyRel].filter descGoodRelpath).map (mkOpForced "ds1")) ∧
    flushWrites "ds1" [descNoRel, descEmptyRel] = [] :=
  ⟨(spec_C10 "ds1" [descNoRel, descEmptyRel]).1,
   (spec_C10 "ds1" [descNoRel, descEmptyRel]).2 (by decide)⟩

/-! ## Idempotent, order-independent upserts (C5) -/

theorem filter_not_own_keys (f : Desc) :
    f.filter (fun q => !((f.map Prod.fst).contains q.1)) = [] := by
  apply List.filter_eq_nil_iff.mpr
  intro q hq
  simp only [Bool.not_eq_true, Bool.not_eq_false]
  have : q.1 ∈ f.map Prod.fst := List.mem_map_of_mem Prod.fst hq
  simpa using this

theorem filter_keys_idem (f : Desc) (l : Desc) :
    (l.filter (fun q => !((f.map Prod.fst).contains q.1))).filter
        (fun q => !((f.map Prod.fst).contains q.1)) =
      l.filter (fun q => !((f.map Prod.fst).contains q.1)) := by
  induction l with
  | nil => rfl
  | cons q rest ih =>
    cases hq : (!((f.map Prod.fst).contains q.1)) with
    | true => rw [List.filter_cons, if_pos hq, List.filter_cons, if_pos hq, ih]
    | false =>
      rw [List.filter_cons, if_neg (by rw [hq]; exact Bool.false_ne_true), ih]

theorem mergeSet_idem (p : Option Desc) (f : Desc) :
    mergeSet (some (mergeSet p f)) f = mergeSet p f := by
  cases p with
  | none =>
    show f ++ f.filter (fun q => !((f.map Prod.fst).contains q.1)) = f
    rw [filter_not_own_keys, List.append_nil]
  | some l =>
    show f ++ (f ++ l.filter (fun q => !((f.map Prod.fst).contains q.1))).filter
        (fun q => !((f.map Prod.fst).contains q.1)) =
      f ++ l.filter (fun q => !((f.map Prod.fst).contains q.1))
    rw [List.filter_append, filter_not_own_keys, List.nil_append, filter_keys_idem]

theorem applyAll_find (st : Store) (ops : List UpsertOp) (hc : opsKeyConsistent ops)
    (k : String × Val) :
    applyAll st ops k =
      match ops.find? (fun o => o.key == k) with
      | some o => some (mergeSet (st k) o.fields)
      | none => st k := by
  induction ops generalizing st with
  | nil => rfl
  | cons op rest ih =>
    have hcr : opsKeyConsistent rest := fun o1 h1 o2 h2 =>
      hc o1 (List.mem_cons_of_mem op h1) o2 (List.mem_cons_of_mem op h2)
    show applyAll (applyOp st op) rest k = _
    rw [ih (applyOp st op) hcr]
    by_cases hk : op.key = k
    · have hkb : (op.key == k) = true := by simpa using hk
      have hfc : List.find? (fun o => o.key == k) (op :: rest) = some op := by
        simp [List.find?_cons, hkb]
      rw [hfc]
      have hop : applyOp st op k = some (mergeSet (st k) op.fields) := by
        unfold applyOp
        rw [if_pos hk.symm]
      cases hf : rest.find? (fun o => o.key == k) with
      | none => rw [hop]
      | some o =>
        have homem : o ∈ rest := List.mem_of_find?_eq_some hf
        have hokey : o.key = k := by simpa using List.find?_some hf
        have hfields : o.fields = op.fields :=
          hc o (List.mem_cons_of_mem op homem) op (List.mem_cons_self op rest)
            (by rw [hokey, hk])
        show some (mergeSet (applyOp st op k) o.fields) = some (mergeSet (st k) op.fields)
        rw [hop, hfields, mergeSet_idem]
    · have hkb : (op.key == k) = false := by simpa using hk
      have hfc : List.find? (fun o => o.key == k) (op :: rest) =
          List.find? (fun o => o.key == k) rest := by
        simp [List.find?_cons, hkb]
      rw [hfc]
      have hop : applyOp st op k = st k := by
        unfold applyOp
        rw [if_neg (fun he => hk he.symm)]
      rw [hop]

theorem applyAll_perm (st : Store) (ops1 ops2 : List UpsertOp)
    (hc : opsKeyConsistent ops1) (hp : ops1.Perm ops2) :
    applyAll st ops2 = applyAll st ops1 := by
  have hc2 : opsKeyConsistent ops2 := fun o1 h1 o2 h2 =>
    hc o1 (hp.mem_iff.mpr h1) o2 (hp.mem_iff.mpr h2)
  funext k
  rw [applyAll_find st ops1 hc k, applyAll_find st ops2 hc2 k]
  cases hf1 : ops1.find? (fun o => o.key == k) with
  | none =>
    have hf2 : ops2.find? (fun o => o.key == k) = none := by
      rw [List.find?_eq_none] at hf1 ⊢
      exact fun a ha => hf1 a (hp.mem_iff.mpr ha)
    rw [hf2]
  | some o1 =>
    have ho1mem := List.mem_of_find?_eq_some hf1
    have ho1key : o1.key = k := by simpa using List.find?_some hf1
    cases hf2 : ops2.find? (fun o => o.key == k) with
    | none =>
      rw [List.find?_eq_none] at hf2
      exact absurd (by simpa using ho1key)
        (hf2 o1 (hp.mem_iff.mp ho1mem))
    | some o2 =>
      have ho2mem := hp.mem_iff.mpr (List.mem_of_find?_eq_some hf2)
      have ho2key : o2.key = k := by simpa using List.find?_some hf2
      have heq : o2.fields = o1.fields :=
        hc o2 ho2mem o1 ho1mem (by rw [ho2key, ho1key])
      show some (mergeSet (st k) o2.fields) = some (mergeSet (st k) o1.fields)
      rw [heq]

theorem applyAll_twice (st : Store) (ops : List UpsertOp) (hc : opsKeyConsistent ops) :
    applyAll st (ops ++ ops) = applyAll st ops := by
  have hca : opsKeyConsistent (ops ++ ops) := by
    intro o1 h1 o2 h2
    rw [List.mem_append] at h1 h2
    exact hc o1 (h1.elim id id) o2 (h2.elim id id)
  funext k
  rw [applyAll_find st (ops ++ ops) hca k, applyAll_find st ops hc k]
  rw [List.find?_append]
  cases hf : ops.find? (fun o => o.key == k) with
  | none => rfl
  | some o => rfl

theorem opOfDesc_inv (dsId : String) (d : Desc) (o : UpsertOp)
    (h : opOfDesc dsId d = some o) :
    ∃ v, List.lookup "relpath" d = some v ∧ o.key = (dsId, v) ∧
      o.fields = d.filter (fun p => p.1 != "_id") := by
  unfold opOfDesc at h
  cases hl : List.lookup "relpath" d with
  | none => rw [hl] at h; exact absurd h (by simp)
  | some v =>
    rw [hl] at h
    have h2 : (if valFalsy v = true then (none : Option UpsertOp)
        else some { key := (dsId, v), fields := d.filter (fun p => p.1 != "_id") }) =
        some o := h
    by_cases hv : valFalsy v = true
    · rw [if_pos hv] at h2
      exact absurd h2 (by simp)
    · rw [if_neg hv] at h2
      refine ⟨v, rfl, ?_, ?_⟩
      · rw [← Option.some_inj.mp h2]
      · rw [← Option.some_inj.mp h2]

/-- C5: with descriptors keyed injectively by relpath, the batch writer's
unordered `$set` upserts give the same final `files` state for any delivery
order, and re-delivering the whole set a second time leaves the state
unchanged. -/
theorem spec_C5 (st : Store) (dsId : String) (b1 b2 : List Desc)
    (hinj : batchRelpathInjective b1) (hperm : b1.Perm b2) :
    applyAll st (flushOps dsId b2) = applyAll st (flushOps dsId b1) ∧
    applyAll st (flushOps dsId b1 ++ flushOps dsId b1) = applyAll st (flushOps dsId b1) := by
  have hc : opsKeyConsistent (flushOps dsId b1) := by
    intro o1 h1 o2 h2 hk
    obtain ⟨d1, hd1, he1⟩ := List.mem_filterMap.mp h1
    obtain ⟨d2, hd2, he2⟩ := List.mem_filterMap.mp h2
    obtain ⟨v1, hl1, hk1, hf1⟩ := opOfDesc_inv dsId d1 o1 he1
    obtain ⟨v2, hl2, hk2, hf2⟩ := opOfDesc_inv dsId d2 o2 he2
    have hv : v1 = v2 := by
      have := hk1 ▸ hk2 ▸ hk
      exact (Prod.mk.injEq _ _ _ _ ▸ this).2
    have hd : d1 = d2 := hinj d1 hd1 d2 hd2 (by rw [hl1, hl2, hv])
    rw [hf1, hf2, hd]
  exact ⟨applyAll_perm st _ _ hc (hperm.filterMap (opOfDesc dsId)),
         applyAll_twice st _ hc⟩

/-- C5 witness: two concrete descriptors delivered in either order, and
delivered twice, leave the empty store in the same final state. -/
theorem spec_C5_witness :
    applyAll emptyStore (flushOps "ds1" [descB, descA]) =
      applyAll emptyStore (flushOps "ds1" [descA, descB]) ∧
    applyAll emptyStore (flushOps "ds1" [descA, descB] ++ flushOps "ds1" [descA, descB]) =
      applyAll emptyStore (flushOps "ds1" [descA, descB]) :=
  spec_C5 emptyStore "ds1" [descA, descB] [descB, descA]
    (by unfold batchRelpathInjective; decide) (by decide)

/-! ## Sniffer failure behaviour (C7) -/

theorem sniff_file_nifti_branch (inp : SniffInput) (hn : isNiftiSuffix inp = true) :
    sniff_file inp = sniff_nifti inp (sniffSize inp) := by
  simp only [sniff_file]
  rw [if_pos hn]

theorem sniff_dicom_err (inp : SniffInput) (e : String)
    (he : inp.dicomRead = Except.error e) (s : Nat) : sniff_dicom inp s = none := by
  simp only [sniff_dicom, he]

theorem sniff_file_fallthrough (inp : SniffInput) (hn : isNiftiSuffix inp = false)
    (hno : (if isDicomCandidate inp then sniff_dicom inp (sniffSize inp) else none) = none) :
    sniff_file inp =
      (if isImageSuffix inp then sniff_image inp (sniffSize inp) else sniffUnknown inp) := by
  simp only [sniff_file]
  rw [if_neg (by simp [hn]), hno]

theorem sniff_file_shape (inp : SniffInput) :
    hasMetaError (sniff_file inp) = false ∧
    ((sniff_file inp).kind = "dicom" ∨ (sniff_file inp).kind = "nifti" ∨
     (sniff_file inp).kind = "image" ∨ (sniff_file inp).kind = "unknown") := by
  by_cases hn : isNiftiSuffix inp = true
  · rw [sniff_file_nifti_branch inp hn]
    simp only [sniff_nifti]
    cases inp.niftiRead <;> exact ⟨rfl, Or.inr (Or.inl rfl)⟩
  · have hn2 : isNiftiSuffix inp = false := by
      cases hval : isNiftiSuffix inp
      · rfl
      · exact absurd hval hn
    cases hd : (if isDicomCandidate inp then sniff_dicom inp (sniffSize inp) else none) with
    | none =>
      rw [sniff_file_fallthrough inp hn2 hd]
      by_cases hi : isImageSuffix inp = true
      · rw [if_pos hi]
        simp only [sniff_image]
        cases inp.imageRead <;> exact ⟨rfl, Or.inr (Or.inr (Or.inl rfl))⟩
      · rw [if_neg hi]
        exact ⟨rfl, Or.inr (Or.inr (Or.inr rfl))⟩
    | some r =>
      have hf : sniff_file inp = r := by
        simp only [sniff_file]
        rw [if_neg (by simp [hn2]), hd]
      by_cases hb : isDicomCandidate inp = true
      · rw [if_pos hb] at hd
        cases hdr : inp.dicomRead with
        | error e0 =>
          rw [sniff_dicom_err inp e0 hdr] at hd
          exact absurd hd (by simp)
        | ok d =>
          simp only [sniff_dicom, hdr] at hd
          rw [hf, ← Option.some_inj.mp hd]
          exact ⟨rfl, Or.inl rfl⟩
      · rw [if_neg hb] at hd
        exact absurd hd (by simp)

/-- C7 counterexample: for concrete inputs where the internal library read
fails, `sniff_file` does not return the promised `unknown`/`error` descriptor
with `meta["error"]`: a failed `.nii` read gives kind `"nifti"` with empty
meta, a failed `.dcm` read falls through to kind `"unknown"` with empty meta,
and a failed `.png` open gives kind `"image"` with empty meta. -/
theorem spec_C7_cex :
    niftiFailInput.niftiRead = Except.error "nibabel load failed" ∧
    (sniff_file niftiFailInput).kind = "nifti" ∧
    ¬ ((sniff_file niftiFailInput).kind = "unknown" ∨
       (sniff_file niftiFailInput).kind = "error") ∧
    hasMetaError (sniff_file niftiFailInput) = false ∧
    dicomFailInput.dicomRead = Except.error "pydicom read failed" ∧
    (sniff_file dicomFailInput).kind = "unknown" ∧
    hasMetaError (sniff_file dicomFailInput) = false ∧
    imageFailInput.imageRead = Except.error "PIL cannot open" ∧
    (sniff_file imageFailInput).kind = "image" ∧
    hasMetaError (sniff_file imageFailInput) = false := by
  refine ⟨rfl, rfl, ?_, rfl, rfl, rfl, rfl, rfl, rfl, rfl⟩
  rintro (h | h) <;> exact absurd h (by decide)

/-- C7 (amended): `sniff_file` is total (never raises) and always returns one
of the kinds `dicom`, `nifti`, `image`, `unknown`, never recording a
`meta["error"]` entry; on internal read failures it does not produce the
`unknown`/`error`-with-message descriptor the claim promises: a NIfTI read
failure yields kind `"nifti"` with `ndim` and `dims` absent, a DICOM read
failure falls through to the image branch or the unknown descriptor (both with
empty meta), and an image read failure yields kind `"image"` with `dims`
absent. -/
theorem spec_C7_amended (inp : SniffInput) :
    hasMetaError (sniff_file inp) = false ∧
    ((sniff_file inp).kind = "dicom" ∨ (sniff_file inp).kind = "nifti" ∨
     (sniff_file inp).kind = "image" ∨ (sniff_file inp).kind = "unknown") ∧
    (isNiftiSuffix inp = true → ∀ e, inp.niftiRead = Except.error e →
      (sniff_file inp).kind = "nifti" ∧ (sniff_file inp).ndim = none ∧
      (sniff_file inp).dims = none) ∧
    (isNiftiSuffix inp = false → isDicomCandidate inp = true →
      ∀ e, inp.dicomRead = Except.error e →
        (sniff_file inp).meta = [] ∧
        (isImageSuffix inp = true → sniff_file inp = sniff_image inp (sniffSize inp)) ∧
        (isImageSuffix inp = false → sniff_file inp = sniffUnknown inp)) ∧
    (isNiftiSuffix inp = false →
      (isDicomCandidate inp = false ∨ ∃ e2, inp.dicomRead = Except.error e2) →
      isImageSuffix inp = true → ∀ e, inp.imageRead = Except.error e →
        (sniff_file inp).kind = "image" ∧ (sniff_file inp).dims = none) := by
  obtain ⟨hmeta, hkind⟩ := sniff_file_shape inp
  refine ⟨hmeta, hkind, ?_, ?_, ?_⟩
  · intro hn e he
    rw [sniff_file_nifti_branch inp hn]
    simp [sniff_nifti, he]
  · intro hn hb e he
    have hno : (if isDicomCandidate inp then sniff_dicom inp (sniffSize inp) else none) =
        none := by
      rw [if_pos hb]
      exact sniff_dicom_err inp e he (sniffSize inp)
    have hf := sniff_file_fallthrough inp hn hno
    refine ⟨?_, fun hi => by rw [hf, if_pos hi], fun hi => by rw [hf, if_neg (by simp [hi])]⟩
    rw [hf]
    by_cases hi : isImageSuffix inp = true
    · rw [if_pos hi]
      simp only [sniff_image]
      cases inp.imageRead <;> rfl
    · rw [if_neg hi]
      rfl
  · intro hn hd hi e he
    have hno : (if isDicomCandidate inp then sniff_dicom inp (sniffSize inp) else none) =
        none := by
      by_cases hb : isDicomCandidate inp = true
      · rw [if_pos hb]
        rcases hd with hd | ⟨e2, he2⟩
        · exact absurd hb (by simp [hd])
        · exact sniff_dicom_err inp e2 he2 (sniffSize inp)
      · rw [if_neg hb]
    rw [sniff_file_fallthrough inp hn hno, if_pos hi]
    simp [sniff_image, he]

/-- C7 amended witness: the amended theorem applied at the three concrete
failing inputs: the failing `.nii` read, the failing `.dcm` read (which falls
through to the unknown descriptor), and the failing `.png` open. -/
theorem spec_C7_amended_witness :
    hasMetaError (sniff_file niftiFailInput) = false ∧
    ((sniff_file niftiFailInput).kind = "nifti" ∧
     (sniff_file niftiFailInput).ndim = none ∧
     (sniff_file niftiFailInput).dims = none) ∧
    sniff_file dicomFailInput = sniffUnknown dicomFailInput ∧
    ((sniff_file imageFailInput).kind = "image" ∧
     (sniff_file imageFailInput).dims = none) :=
  ⟨(spec_C7_amended niftiFailInput).1,
   (spec_C7_amended niftiFailInput).2.2.1 (by decide) "nibabel load failed" rfl,
   ((spec_C7_amended dicomFailInput).2.2.2.1 (by decide) (by decide)
      "pydicom read failed" rfl).2.2 (by decide),
   (spec_C7_amended imageFailInput).2.2.2.2 (by decide)
      (Or.inl (by decide)) (by decide) "PIL cannot open" rfl⟩
